import Mathlib

/-!
Verification of the Quran WhatsApp bot's dispatch / quiz-session / rate-limiter
core (src/index.js, src/commands/index.js, src/utils/*.js).

JavaScript strings are modelled as `List Char` where character-level
processing matters (trim / split / toLowerCase), and as Lean `String`
where only equality is used (identifiers, message bodies).  A JS `Map`
is modelled as an association list mutated by `mapSet` / `mapDelete`
with `Map`'s replace-or-append semantics.  Machine timestamps
(`Date.now()`) are `Nat` milliseconds.
-/

namespace QuranBot

/-! ### JS `Map` model -/

def mapGet {α : Type} (m : List (String × α)) (k : String) : Option α :=
  (m.find? (fun p => decide (p.1 = k))).map Prod.snd

def mapHas {α : Type} (m : List (String × α)) (k : String) : Bool :=
  (mapGet m k).isSome

/-- `Map.prototype.set`: replaces the value under an existing key in place,
otherwise appends a fresh entry. -/
def mapSet {α : Type} (m : List (String × α)) (k : String) (v : α) :
    List (String × α) :=
  if mapHas m k then m.map (fun p => if p.1 = k then (k, v) else p)
  else m ++ [(k, v)]

/-- `Map.prototype.delete`. -/
def mapDelete {α : Type} (m : List (String × α)) (k : String) :
    List (String × α) :=
  m.filter (fun p => decide (¬ p.1 = k))

theorem mapGet_nil {α : Type} (k : String) : mapGet ([] : List (String × α)) k = none := rfl

theorem find?_key_map_set {α : Type} (m : List (String × α)) (k : String) (v : α) :
    (m.map (fun p => if p.1 = k then (k, v) else p)).find? (fun p => decide (p.1 = k))
      = (m.find? (fun p => decide (p.1 = k))).map (fun _ => (k, v)) := by
  induction m with
  | nil => rfl
  | cons p m ih =>
    by_cases hp : p.1 = k
    · simp [List.find?, hp]
    · simp [List.find?, hp, ih]

theorem find?_append_of_none {α : Type} (l₁ l₂ : List α) (p : α → Bool)
    (h : l₁.find? p = none) : (l₁ ++ l₂).find? p = l₂.find? p := by
  induction l₁ with
  | nil => rfl
  | cons a l ih =>
    cases hpa : p a with
    | true => simp [List.find?, hpa] at h
    | false =>
      simp only [List.find?, hpa] at h
      simpa [List.find?, hpa] using ih h

theorem mapGet_mapSet_self {α : Type} (m : List (String × α)) (k : String) (v : α) :
    mapGet (mapSet m k v) k = some v := by
  unfold mapSet
  by_cases h : mapHas m k
  · rw [if_pos h]
    unfold mapGet
    rw [find?_key_map_set]
    unfold mapHas mapGet at h
    cases hf : m.find? (fun p => decide (p.1 = k)) with
    | none => rw [hf] at h; simp at h
    | some q => simp
  · rw [if_neg h]
    unfold mapGet
    have hnone : m.find? (fun p => decide (p.1 = k)) = none := by
      unfold mapHas mapGet at h
      cases hf : m.find? (fun p => decide (p.1 = k)) with
      | none => rfl
      | some q => rw [hf] at h; simp at h
    rw [find?_append_of_none _ _ _ hnone]
    simp [List.find?]

theorem mapGet_mapDelete_self {α : Type} (m : List (String × α)) (k : String) :
    mapGet (mapDelete m k) k = none := by
  induction m with
  | nil => rfl
  | cons p m ih =>
    by_cases hp : p.1 = k
    · simp only [mapDelete, List.filter, hp, decide_True, decide_not, Bool.not_true]
      simpa [mapDelete] using ih
    · simpa [mapDelete, mapGet, List.find?, List.filter, hp] using ih

/-! ### Configuration constants (src/config.js) -/

def antiSpamEnabled : Bool := true
def maxMessages : Nat := 10
def interval : Nat := 60000
def blockDuration : Nat := 300000

/-! ### Rate limiter (src/index.js, `isSpamming`, lines 63–95) -/

structure RateState where
  count : Nat
  firstMessage : Nat
  blocked : Bool
  blockedUntil : Nat
deriving Repr, DecidableEq

abbrev Tracker := List (String × RateState)

/-- `isSpamming(sender)` at time `now`, acting on the `messageTracker` map.
Returns the boolean result together with the tracker after the call. -/
def isSpamming (tracker : Tracker) (sender : String) (now : Nat) :
    Bool × Tracker :=
  if antiSpamEnabled = false then (false, tracker)
  else
    let userData := (mapGet tracker sender).getD ⟨0, now, false, 0⟩
    if userData.blocked ∧ now < userData.blockedUntil then
      (true, tracker)
    else
      let u1 := if userData.blocked then
                  { userData with blocked := false, count := 0 }
                else userData
      let u2 := if now - u1.firstMessage > interval then
                  { u1 with count := 0, firstMessage := now }
                else u1
      let u3 := { u2 with count := u2.count + 1 }
      if u3.count > maxMessages then
        (true, mapSet tracker sender
          { u3 with blocked := true, blockedUntil := now + blockDuration })
      else
        (false, mapSet tracker sender u3)

/-- A sequence of calls to `isSpamming` for one sender, returning the list of
results and the final tracker. -/
def runCalls (tracker : Tracker) (sender : String) : List Nat → List Bool × Tracker
  | [] => ([], tracker)
  | t :: ts =>
    let r := isSpamming tracker sender t
    let rest := runCalls r.2 sender ts
    (r.1 :: rest.1, rest.2)

theorem isSpamming_fresh (tracker : Tracker) (sender : String) (now : Nat)
    (h : mapGet tracker sender = none) :
    isSpamming tracker sender now =
      (false, mapSet tracker sender ⟨1, now, false, 0⟩) := by
  simp [isSpamming, h, antiSpamEnabled, interval, maxMessages]

theorem isSpamming_within (tracker : Tracker) (sender : String) (now : Nat)
    (k t1 bu : Nat) (hk : k + 1 ≤ 10) (hnow : now ≤ t1 + 60000)
    (h : mapGet tracker sender = some ⟨k, t1, false, bu⟩) :
    isSpamming tracker sender now =
      (false, mapSet tracker sender ⟨k + 1, t1, false, bu⟩) := by
  have hwin : ¬ now - t1 > 60000 := by omega
  simp [isSpamming, h, antiSpamEnabled, interval, maxMessages, hwin]
  omega

theorem isSpamming_block (tracker : Tracker) (sender : String) (now : Nat)
    (k t1 bu : Nat) (hk : 10 ≤ k) (hnow : now ≤ t1 + 60000)
    (h : mapGet tracker sender = some ⟨k, t1, false, bu⟩) :
    isSpamming tracker sender now =
      (true, mapSet tracker sender ⟨k + 1, t1, true, now + 300000⟩) := by
  have hwin : ¬ now - t1 > 60000 := by omega
  simp [isSpamming, h, antiSpamEnabled, interval, maxMessages, blockDuration, hwin]
  omega

theorem isSpamming_blocked (tracker : Tracker) (sender : String) (now : Nat)
    (st : RateState) (h : mapGet tracker sender = some st)
    (hb : st.blocked = true) (hu : now < st.blockedUntil) :
    isSpamming tracker sender now = (true, tracker) := by
  simp [isSpamming, h, antiSpamEnabled, hb, hu]

theorem isSpamming_unblock (tracker : Tracker) (sender : String) (now : Nat)
    (c t1 bu : Nat) (h : mapGet tracker sender = some ⟨c, t1, true, bu⟩)
    (hbu : bu ≤ now) (hwin : t1 + 60000 < now) :
    isSpamming tracker sender now =
      (false, mapSet tracker sender ⟨1, now, false, bu⟩) := by
  have h1 : ¬ now < bu := by omega
  have h2 : now - t1 > 60000 := by omega
  have h3 : ¬ (1 : Nat) > 10 := by omega
  simp [isSpamming, h, antiSpamEnabled, interval, maxMessages, h1, h2, h3]

/-- Within one window, a run of calls starting from an unblocked count `k`
just increments the counter, answering `false` each time. -/
theorem runCalls_window (sender : String) (t1 bu : Nat) (ts : List Nat) :
    ∀ (tracker : Tracker) (k : Nat),
      mapGet tracker sender = some ⟨k, t1, false, bu⟩ →
      (∀ t ∈ ts, t ≤ t1 + 60000) →
      k + ts.length ≤ 10 →
      ∃ tr2 : Tracker,
        runCalls tracker sender ts = (List.replicate ts.length false, tr2) ∧
        mapGet tr2 sender = some ⟨k + ts.length, t1, false, bu⟩ := by
  induction ts with
  | nil => intro tracker k h _ _; exact ⟨tracker, rfl, by simpa using h⟩
  | cons t ts ih =>
    intro tracker k h hts hlen
    have hstep := isSpamming_within tracker sender t k t1 bu
      (by simp at hlen; omega) (hts t (by simp)) h
    have hget : mapGet (mapSet tracker sender ⟨k + 1, t1, false, bu⟩) sender
        = some ⟨k + 1, t1, false, bu⟩ := mapGet_mapSet_self _ _ _
    obtain ⟨tr2, hrun, hfin⟩ := ih (mapSet tracker sender ⟨k + 1, t1, false, bu⟩)
      (k + 1) hget (fun u hu => hts u (by simp [hu])) (by simp at hlen ⊢; omega)
    refine ⟨tr2, ?_, ?_⟩
    · simp [runCalls, hstep, hrun, List.replicate_succ]
    · simpa [Nat.add_assoc, Nat.add_comm 1 ts.length] using hfin

/-- While blocked and before expiry, every call answers `true` and leaves the
tracker untouched. -/
theorem runCalls_blocked (sender : String) (tracker : Tracker) (st : RateState)
    (h : mapGet tracker sender = some st) (hb : st.blocked = true) :
    ∀ us : List Nat, (∀ u ∈ us, u < st.blockedUntil) →
      runCalls tracker sender us = (List.replicate us.length true, tracker) := by
  intro us
  induction us with
  | nil => intro _; rfl
  | cons u us ih =>
    intro hus
    have hstep := isSpamming_blocked tracker sender u st h hb (hus u (by simp))
    have hrest := ih (fun x hx => hus x (by simp [hx]))
    simp [runCalls, hstep, hrest, List.replicate_succ]

/-- **C1.** With `maxMessages = 10`, `interval = 60000`,
`blockDuration = 300000`: a fresh sender's first 10 calls inside one window
are all unblocked; the 11th call inside the window blocks, setting
`blockedUntil` to its own timestamp plus the block duration; every further
call before that instant reports blocked and leaves the state untouched,
regardless of idle time; and the first call at or after expiry is unblocked
with the counter reset to 1. -/
theorem rate_limiter_scenario (tracker : Tracker) (sender : String)
    (t1 : Nat) (ts : List Nat) (t11 : Nat)
    (h0 : mapGet tracker sender = none)
    (hts : ∀ t ∈ ts, t ≤ t1 + 60000) (hlen : ts.length = 9)
    (h11a : t1 ≤ t11) (h11b : t11 ≤ t1 + 60000) :
    ∃ tr10 tr11 : Tracker,
      runCalls tracker sender (t1 :: ts) = (List.replicate 10 false, tr10) ∧
      mapGet tr10 sender = some ⟨10, t1, false, 0⟩ ∧
      isSpamming tr10 sender t11 = (true, tr11) ∧
      mapGet tr11 sender = some ⟨11, t1, true, t11 + 300000⟩ ∧
      (∀ us : List Nat, (∀ u ∈ us, u < t11 + 300000) →
        runCalls tr11 sender us = (List.replicate us.length true, tr11)) ∧
      (∀ v, t11 + 300000 ≤ v →
        (isSpamming tr11 sender v).1 = false ∧
        mapGet (isSpamming tr11 sender v).2 sender =
          some ⟨1, v, false, t11 + 300000⟩) := by
  have hfirst := isSpamming_fresh tracker sender t1 h0
  have hget1 : mapGet (mapSet tracker sender ⟨1, t1, false, 0⟩) sender
      = some ⟨1, t1, false, 0⟩ := mapGet_mapSet_self _ _ _
  obtain ⟨tr10, hrun9, hget10⟩ := runCalls_window sender t1 0 ts
    (mapSet tracker sender ⟨1, t1, false, 0⟩) 1 hget1 hts (by omega)
  rw [hlen] at hget10
  norm_num at hget10
  have hblock := isSpamming_block tr10 sender t11 10 t1 0 (by omega) h11b hget10
  set tr11 := mapSet tr10 sender ⟨11, t1, true, t11 + 300000⟩ with htr11
  have hget11 : mapGet tr11 sender = some ⟨11, t1, true, t11 + 300000⟩ :=
    mapGet_mapSet_self _ _ _
  refine ⟨tr10, tr11, ?_, hget10, hblock, hget11, ?_, ?_⟩
  · have : runCalls tracker sender (t1 :: ts) =
        ((isSpamming tracker sender t1).1 ::
          (runCalls (isSpamming tracker sender t1).2 sender ts).1,
         (runCalls (isSpamming tracker sender t1).2 sender ts).2) := rfl
    rw [this, hfirst]
    simp only [hrun9]
    have h10 : List.replicate 10 false = false :: List.replicate 9 false := rfl
    rw [h10, ← hlen]
  · intro us hus
    exact runCalls_blocked sender tr11 ⟨11, t1, true, t11 + 300000⟩ hget11 rfl us hus
  · intro v hv
    have hstep := isSpamming_unblock tr11 sender v 11 t1 (t11 + 300000)
      hget11 hv (by omega)
    rw [hstep]
    exact ⟨rfl, mapGet_mapSet_self _ _ _⟩

/-- Witness for `rate_limiter_scenario` at concrete inputs. -/
theorem rate_limiter_scenario_witness :
    ∃ tr10 tr11 : Tracker,
      runCalls [] "a@s.whatsapp.net" (0 :: List.replicate 9 0) =
        (List.replicate 10 false, tr10) ∧
      mapGet tr10 "a@s.whatsapp.net" = some ⟨10, 0, false, 0⟩ ∧
      isSpamming tr10 "a@s.whatsapp.net" 0 = (true, tr11) ∧
      mapGet tr11 "a@s.whatsapp.net" = some ⟨11, 0, true, 0 + 300000⟩ ∧
      (∀ us : List Nat, (∀ u ∈ us, u < 0 + 300000) →
        runCalls tr11 "a@s.whatsapp.net" us = (List.replicate us.length true, tr11)) ∧
      (∀ v, 0 + 300000 ≤ v →
        (isSpamming tr11 "a@s.whatsapp.net" v).1 = false ∧
        mapGet (isSpamming tr11 "a@s.whatsapp.net" v).2 "a@s.whatsapp.net" =
          some ⟨1, v, false, 0 + 300000⟩) :=
  rate_limiter_scenario [] "a@s.whatsapp.net" 0 (List.replicate 9 0) 0 rfl
    (by simp) (by simp) (by omega) (by omega)

/-! ### Character-level string operations (JS `trim`, `split(/\s+/)`,
`toLowerCase`, `findIndex`), shared by the command parser and the quiz
interceptor. -/

def isWs (c : Char) : Bool := c.isWhitespace

/-- JS `String.prototype.trim` on a char list. -/
def jsTrim (l : List Char) : List Char :=
  ((l.dropWhile isWs).reverse.dropWhile isWs).reverse

/-- Accumulator pass of `split(/\s+/)`: collects maximal non-whitespace runs.
`cur` holds the current run reversed. -/
def wsSplitAux (cur : List Char) : List Char → List (List Char)
  | [] => if cur = [] then [] else [cur.reverse]
  | c :: cs =>
    if isWs c then
      if cur = [] then wsSplitAux [] cs else cur.reverse :: wsSplitAux [] cs
    else wsSplitAux (c :: cur) cs

def wsSplit (l : List Char) : List (List Char) := wsSplitAux [] l

/-- JS `str.split(/\s+/)` restricted to already-trimmed strings: the empty
string yields `[""]`; otherwise the maximal non-whitespace runs. -/
def jsSplitWsTrimmed (l : List Char) : List (List Char) :=
  if l = [] then [[]] else wsSplit l

/-- JS `arr.join(sep)` with a single-space separator. -/
def joinSp : List (List Char) → List Char
  | [] => []
  | [t] => t
  | t :: t2 :: ts => t ++ ' ' :: joinSp (t2 :: ts)

/-- JS `String.prototype.toLowerCase` (ASCII letters; Arabic has no case). -/
def jsToLower (l : List Char) : List Char := l.map Char.toLower

def findIdxAux {α : Type} (p : α → Bool) : List α → Nat → Option Nat
  | [], _ => none
  | a :: l, n => if p a then some n else findIdxAux p l (n + 1)

/-- JS `Array.prototype.findIndex`: first index satisfying `p`, else `-1`. -/
def jsFindIndex {α : Type} (l : List α) (p : α → Bool) : Int :=
  match findIdxAux p l 0 with
  | some n => (n : Int)
  | none => -1

/-! ### Command parsing (src/utils/helpers.js, `parseCommand`, lines 112–135) -/

structure Parsed where
  command : Option (List Char)
  args : List (List Char)
  fullArgs : List Char
  usedPfx : Option (List Char)
deriving Repr, DecidableEq

/-- `parseCommand(text, prefix)`: find the first matching prefix; strip it,
trim, split on whitespace runs; the leading token lowercased is the command,
the rest are the arguments. -/
def parseCommand (text : List Char) (prefixes : List (List Char)) : Parsed :=
  match prefixes.find? (fun p => p.isPrefixOf text) with
  | none => ⟨none, [], [], none⟩
  | some p =>
    let parts := jsSplitWsTrimmed (jsTrim (text.drop p.length))
    let command := jsToLower (parts.headD [])
    let args := parts.tail
    ⟨some command, args, joinSp args, some p⟩

/-- Configured prefix list (src/config.js: `prefix: ['/']`). -/
def botPrefixes : List (List Char) := [['/']]

/-! Tokenization lemmas used to evaluate `parseCommand` on an invocation
built from a token list. -/

theorem takeWhile_append_all {α : Type} (p : α → Bool) (l₁ l₂ : List α)
    (h : ∀ a ∈ l₁, p a = true) :
    (l₁ ++ l₂).takeWhile p = l₁ ++ l₂.takeWhile p := by
  induction l₁ with
  | nil => rfl
  | cons a l ih =>
    have ha := h a (by simp)
    simp [List.takeWhile, ha, ih (fun x hx => h x (by simp [hx]))]

theorem dropWhile_append_all {α : Type} (p : α → Bool) (l₁ l₂ : List α)
    (h : ∀ a ∈ l₁, p a = true) :
    (l₁ ++ l₂).dropWhile p = l₂.dropWhile p := by
  induction l₁ with
  | nil => rfl
  | cons a l ih =>
    have ha := h a (by simp)
    simp [List.dropWhile, ha, ih (fun x hx => h x (by simp [hx]))]

/-- A whitespace-free token prepended to the input is absorbed into the
accumulator. -/
theorem wsSplitAux_token (t : List Char) (h : ∀ c ∈ t, isWs c = false) :
    ∀ (cur rest : List Char),
      wsSplitAux cur (t ++ rest) = wsSplitAux (t.reverse ++ cur) rest := by
  induction t with
  | nil => intro cur rest; rfl
  | cons c t ih =>
    intro cur rest
    have hc := h c (by simp)
    have ht := ih (fun x hx => h x (by simp [hx]))
    simp [wsSplitAux, hc, ht (c :: cur) rest]

theorem wsSplitAux_nil_input (cur : List Char) :
    wsSplitAux cur [] = if cur = [] then [] else [cur.reverse] := rfl

theorem wsSplitAux_space (cur rest : List Char) (h : cur ≠ []) :
    wsSplitAux cur (' ' :: rest) = cur.reverse :: wsSplitAux [] rest := by
  have hsp : isWs ' ' = true := rfl
  simp [wsSplitAux, hsp, h]

theorem wsSplit_joinSp (ts : List (List Char))
    (h : ∀ t ∈ ts, t ≠ [] ∧ ∀ c ∈ t, isWs c = false) :
    wsSplit (joinSp ts) = ts := by
  induction ts with
  | nil => rfl
  | cons t ts ih =>
    obtain ⟨hne, hws⟩ := h t (by simp)
    cases ts with
    | nil =>
      show wsSplitAux [] (joinSp [t]) = [t]
      have hj : joinSp [t] = t ++ [] := by simp [joinSp]
      rw [hj, wsSplitAux_token t hws [] [], List.append_nil, wsSplitAux_nil_input]
      have hrne : t.reverse ≠ [] := by simpa using hne
      simp [hrne]
    | cons t2 ts2 =>
      show wsSplitAux [] (joinSp (t :: t2 :: ts2)) = t :: t2 :: ts2
      have hj : joinSp (t :: t2 :: ts2) = t ++ ' ' :: joinSp (t2 :: ts2) := by
        simp [joinSp]
      rw [hj, wsSplitAux_token t hws [] (' ' :: joinSp (t2 :: ts2)), List.append_nil,
        wsSplitAux_space _ _ (by simpa using hne), List.reverse_reverse]
      exact congrArg (t :: ·) (ih (fun x hx => h x (by simp [hx])))

theorem joinSp_ne_nil (t : List Char) (ts : List (List Char)) (h : t ≠ []) :
    joinSp (t :: ts) ≠ [] := by
  cases ts with
  | nil => simpa [joinSp] using h
  | cons t2 ts2 =>
    simp only [joinSp]
    intro hc
    exact h (List.append_eq_nil.mp hc).1

/-- The reverse of a space-joined list of nonempty whitespace-free tokens
starts with a non-whitespace character. -/
theorem joinSp_reverse_head (ts : List (List Char)) (hts : ts ≠ [])
    (h : ∀ t ∈ ts, t ≠ [] ∧ ∀ c ∈ t, isWs c = false) :
    ∃ c cs, (joinSp ts).reverse = c :: cs ∧ isWs c = false := by
  induction ts with
  | nil => exact absurd rfl hts
  | cons t ts ih =>
    obtain ⟨hne, hws⟩ := h t (by simp)
    cases ts with
    | nil =>
      cases hr : t.reverse with
      | nil => exact absurd (by simpa using hr) hne
      | cons c cs =>
        refine ⟨c, cs, by simpa [joinSp] using hr, ?_⟩
        have : c ∈ t := by
          have : c ∈ t.reverse := by rw [hr]; simp
          simpa using this
        exact hws c this
    | cons t2 ts2 =>
      obtain ⟨c, cs, hrc, hcw⟩ := ih (by simp) (fun x hx => h x (by simp [hx]))
      refine ⟨c, cs ++ ' ' :: t.reverse, ?_, hcw⟩
      have hj : joinSp (t :: t2 :: ts2) = t ++ ' ' :: joinSp (t2 :: ts2) := by
        simp [joinSp]
      rw [hj]
      simp [List.reverse_append, hrc]

theorem jsTrim_joinSp (ts : List (List Char)) (hts : ts ≠ [])
    (h : ∀ t ∈ ts, t ≠ [] ∧ ∀ c ∈ t, isWs c = false) :
    jsTrim (joinSp ts) = joinSp ts := by
  obtain ⟨t, ts2, rfl⟩ := List.exists_cons_of_ne_nil hts
  obtain ⟨hne, hws⟩ := h t (by simp)
  have hleft : (joinSp (t :: ts2)).dropWhile isWs = joinSp (t :: ts2) := by
    obtain ⟨c, cs, hcons⟩ := List.exists_cons_of_ne_nil (joinSp_ne_nil t ts2 hne)
    have hc : c ∈ t := by
      cases ts2 with
      | nil =>
        have : joinSp [t] = t := by simp [joinSp]
        rw [this] at hcons; rw [hcons]; simp
      | cons t2 ts3 =>
        have hj : joinSp (t :: t2 :: ts3) = t ++ ' ' :: joinSp (t2 :: ts3) := by
          simp [joinSp]
        rw [hj] at hcons
        cases t with
        | nil => exact absurd rfl hne
        | cons a t' =>
          simp only [List.cons_append] at hcons
          have hac : a = c := by
            simpa using congrArg (fun l => l.headD ' ') hcons
          rw [← hac]
          simp
    rw [hcons]
    simp [List.dropWhile, hws c hc]
  rw [jsTrim, hleft]
  obtain ⟨c, cs, hrc, hcw⟩ := joinSp_reverse_head (t :: ts2) (by simp) h
  rw [hrc]
  simp [List.dropWhile, hcw, ← hrc]

theorem isPrefixOf_append (l₁ l₂ : List Char) : l₁.isPrefixOf (l₁ ++ l₂) = true := by
  induction l₁ with
  | nil => simp [List.isPrefixOf]
  | cons a l ih => simp [List.isPrefixOf, ih]

/-- Evaluation of `parseCommand` on a prefixed invocation assembled from a
leading token and argument tokens, all nonempty and whitespace-free. -/
theorem parseCommand_tokens (pfx tok : List Char) (args : List (List Char))
    (htok : tok ≠ [] ∧ ∀ c ∈ tok, isWs c = false)
    (hargs : ∀ t ∈ args, t ≠ [] ∧ ∀ c ∈ t, isWs c = false) :
    parseCommand (pfx ++ joinSp (tok :: args)) [pfx] =
      ⟨some (jsToLower tok), args, joinSp args, some pfx⟩ := by
  have hall : ∀ t ∈ tok :: args, t ≠ [] ∧ ∀ c ∈ t, isWs c = false := by
    intro t ht
    rcases List.mem_cons.mp ht with h | h
    · exact h ▸ htok
    · exact hargs t h
  have hfind : ([pfx].find? (fun p => p.isPrefixOf (pfx ++ joinSp (tok :: args))))
      = some pfx := by
    simp [List.find?, isPrefixOf_append]
  have hdrop : (pfx ++ joinSp (tok :: args)).drop pfx.length = joinSp (tok :: args) := by
    simp
  have hne : joinSp (tok :: args) ≠ [] := joinSp_ne_nil tok args htok.1
  rw [parseCommand, hfind]
  simp only [hdrop, jsTrim_joinSp (tok :: args) (by simp) hall,
    jsSplitWsTrimmed, if_neg hne, wsSplit_joinSp (tok :: args) hall]
  rfl

/-! ### Quiz data model and session store (src/utils/quizSessions.js,
src/commands/index.js lines 781–834, src/index.js lines 216–242) -/

structure QAnswer where
  answer : String
  t : Nat
deriving DecidableEq, Repr

structure QuizQuestion where
  q : String
  answers : List QAnswer
deriving DecidableEq, Repr

structure QuizSession where
  question : QuizQuestion
  timer : Nat
deriving DecidableEq, Repr

abbrev QuizStore := List (String × QuizSession)

structure Msg where
  dest : String
  body : String
deriving DecidableEq, Repr

def optStr : Option String → String
  | some s => s
  | none => "undefined"

/-- `session.question.answers[choiceIndex]?.t === 1` with
`choiceIndex = parseInt(answer, 10) - 1` (src/index.js lines 224–225). -/
def answerIsCorrect (q : QuizQuestion) (k : Nat) : Bool :=
  match q.answers[k - 1]? with
  | some a => a.t == 1
  | none => false

/-- `question.answers.find(a => a.t === 1)?.answer`. -/
def correctAnswerText (q : QuizQuestion) : Option String :=
  (q.answers.find? (fun a => a.t == 1)).map (fun a => a.answer)

/-- `findIndex(a => a.t === 1) + 1` in the answer path (src/index.js line 229). -/
def answerCorrectNum (q : QuizQuestion) : Int :=
  jsFindIndex q.answers (fun a => a.t == 1) + 1

/-- `findIndex(a => a.t === 1) + 1` in the expiry path
(src/commands/index.js line 824). -/
def expiryCorrectNum (q : QuizQuestion) : Int :=
  jsFindIndex q.answers (fun a => a.t == 1) + 1

def correctReplyText (q : QuizQuestion) : String :=
  "✅ *إجابة صحيحة!* أحسنت 🎉\n\n📌 الإجابة: " ++ optStr (correctAnswerText q)

def wrongReplyText (q : QuizQuestion) : String :=
  "❌ *إجابة خاطئة*\n\n📌 الإجابة الصحيحة هي رقم *" ++
    toString (answerCorrectNum q) ++ "*: " ++ optStr (correctAnswerText q)

def timeUpText (q : QuizQuestion) : String :=
  "⏰ *انتهى الوقت!*\n\n📌 الإجابة الصحيحة كانت رقم *" ++
    toString (expiryCorrectNum q) ++ "*: " ++ optStr (correctAnswerText q)

structure InterceptResult where
  consumed : Bool
  store : QuizStore
  msgs : List Msg
  cancelledTimer : Option Nat
deriving DecidableEq, Repr

/-- Quiz answer interceptor (src/index.js lines 216–242).  When a live
session exists and the trimmed text is exactly `1`, `2` or `3`, it cancels
the timer, deletes the session, then reports correctness; otherwise nothing
happens and the message falls through to command parsing. -/
def quizIntercept (store : QuizStore) (sender : String) (text : List Char) :
    InterceptResult :=
  match mapGet store sender with
  | none => ⟨false, store, [], none⟩
  | some session =>
    let answer := jsTrim text
    if answer = ['1'] ∨ answer = ['2'] ∨ answer = ['3'] then
      let store2 := mapDelete store sender
      let k : Nat := if answer = ['1'] then 1 else if answer = ['2'] then 2 else 3
      let body := if answerIsCorrect session.question k
                  then correctReplyText session.question
                  else wrongReplyText session.question
      ⟨true, store2, [⟨sender, body⟩], some session.timer⟩
    else ⟨false, store, [], none⟩

def pendingText : String :=
  "⏳ يوجد سؤال قيد الانتظار! أجب عليه أولاً بـ *1* أو *2* أو *3*"

def quizDbErrorText : String := "❌ لم يتم تحميل قاعدة بيانات الأسئلة."

def letters : List String := ["1️⃣", "2️⃣", "3️⃣"]

def questionText (q : QuizQuestion) : String :=
  let header := "🕌 *سؤال إسلامي*\n" ++ "┄┄┄┄┄┄┄┄┄┄┄┄┄┄┄┄┄┄┄┄┄┄\n\n" ++
    "❓ *" ++ q.q ++ "*\n\n"
  let body := (List.range q.answers.length).foldl (fun acc i =>
    acc ++ letters.getD i "undefined" ++ " " ++
      (q.answers.getD i ⟨"", 0⟩).answer ++ "\n") header
  body ++ "\n┄┄┄┄┄┄┄┄┄┄┄┄┄┄┄┄┄┄┄┄┄┄\n" ++ "⏱️ لديك *30 ثانية* للإجابة\n" ++
    "💬 أرسل رقم الإجابة: *1* أو *2* أو *3*"

/-- `QUIZ_POOL[Math.floor(Math.random() * QUIZ_POOL.length)]`; the random
draw is a parameter reduced into range. -/
def poolPick (pool : List QuizQuestion) (pick : Nat) : QuizQuestion :=
  pool.getD (pick % pool.length) ⟨"", []⟩

structure QuizStartResult where
  store : QuizStore
  msgs : List Msg
  drawn : Option QuizQuestion
  timerArmed : Option Nat
deriving DecidableEq, Repr

/-- The quiz command executor (src/commands/index.js lines 787–833):
empty pool → database error; live session → pending notice and no change;
otherwise draw a question, send it, arm the 30 s timer and store the
session. -/
def quizStart (pool : List QuizQuestion) (store : QuizStore) (sender : String)
    (pick timerId : Nat) : QuizStartResult :=
  if pool.length = 0 then ⟨store, [⟨sender, quizDbErrorText⟩], none, none⟩
  else if mapHas store sender then ⟨store, [⟨sender, pendingText⟩], none, none⟩
  else
    let question := poolPick pool pick
    ⟨mapSet store sender ⟨question, timerId⟩,
      [⟨sender, questionText question⟩], some question, some timerId⟩

/-- The expiry timer callback (src/commands/index.js lines 819–828): no-op
if the session is gone, otherwise delete it and reveal the correct option;
`question` is the closure-captured question. -/
def quizExpire (store : QuizStore) (sender : String) (question : QuizQuestion) :
    QuizStore × List Msg :=
  if mapHas store sender = false then (store, [])
  else (mapDelete store sender, [⟨sender, timeUpText question⟩])

/-! ### Command registry (src/commands/index.js lines 44–101) -/

structure CommandData where
  name : String
  aliases : List String
  ownerOnly : Bool
  groupOnly : Bool
  privateOnly : Bool
deriving DecidableEq, Repr

/-- `registerCommand`: the shared descriptor is stored under the primary
name and under every alias. -/
def registerCmd (m : List (String × CommandData)) (d : CommandData) :
    List (String × CommandData) :=
  (d.name :: d.aliases).foldl (fun acc k => mapSet acc k d) m

/-- The sixteen registrations of src/commands/index.js, in source order. -/
def commandDefs : List CommandData := [
  ⟨"ping", ["بنق", "اتصال"], false, false, false⟩,
  ⟨"help", ["مساعدة", "اوامر", "أوامر", "قران", "بوت", "أ", "ا", "م"], false, false, false⟩,
  ⟨"info", ["معلومات", "عن", "حول"], false, false, false⟩,
  ⟨"time", ["وقت", "الوقت", "ساعة"], false, false, false⟩,
  ⟨"echo", ["صدى", "ردد", "قل"], false, false, false⟩,
  ⟨"sticker", ["ملصق", "ستيكر", "s"], false, false, false⟩,
  ⟨"menu", ["قائمة", "القائمة"], false, false, false⟩,
  ⟨"broadcast", ["اذاعة", "إذاعة", "بث"], true, false, false⟩,
  ⟨"chatstats", ["احصائيات", "إحصائيات", "stats"], true, false, false⟩,
  ⟨"فهرس", ["قائمة", "قائمة السور", "لستة", "السور"], false, false, false⟩,
  ⟨"surah", ["سورة", "سوره", "سوره", "سور"], false, false, false⟩,
  ⟨"تلاوة", ["صوت", "تلاوه", "قراءة", "voice"], false, false, false⟩,
  ⟨"صفحة", ["صفحه", "رقم", "ص"], false, false, false⟩,
  ⟨"آية", ["اية", "aya", "آيه", "ايه"], false, false, false⟩,
  ⟨"حديث", ["بخاري", "سنة", "hadith", "الحديث"], false, false, false⟩,
  ⟨"سؤال", ["أسئلة", "مسابقة", "quiz", "اختبار", "فوازير", "فزورة"], false, false, false⟩]

def commands : List (String × CommandData) := commandDefs.foldl registerCmd []

/-- `getCommand(name)`. -/
def getCommand (name : String) : Option CommandData := mapGet commands name

/-! ### Dispatch pipeline (src/index.js lines 155–329)

We model the command-dispatch portion of the `messages.upsert` handler:
self-message skip, quiz-answer interception, command parsing, registry
lookup, spam gate, permission gates, and handler execution guarded by
try/catch.  Handler bodies are external I/O; a handler is modelled as a
function returning `Except` — `Except.error` models a thrown exception.
The auto-read / logging / welcome / auto-duaa side features are pure I/O
glue outside every claim and are not modelled. -/

structure Event where
  fromMe : Bool
  text : List Char
  sender : String
  senderJid : String
  isGroup : Bool
  isOwner : Bool

structure BotState where
  quiz : QuizStore
  rate : Tracker

abbrev Exec := String → Except String (List Msg)

def ownerOnlyText : String := "🔒 هذا الأمر مخصص لمالك البوت فقط."
def groupOnlyText : String := "👥 هذا الأمر يعمل في المجموعات فقط."
def privateOnlyText : String := "🔐 هذا الأمر يعمل في المحادثات الخاصة فقط."
def cmdErrorText : String := "❌ حدث خطأ أثناء تنفيذ الأمر."

/-- Command parsing and dispatch (src/index.js lines 269–327).  `if
(command)` makes both `null` and the empty string skip dispatch; an
unresolved name sends nothing; a thrown handler exception is caught and
replaced by one generic failure notice. -/
def commandStage (exec : Exec) (st : BotState) (e : Event) (now : Nat) :
    List Msg × BotState :=
  let parsed := parseCommand e.text botPrefixes
  match parsed.command with
  | none => ([], st)
  | some c =>
    if c = [] then ([], st)
    else
      match getCommand (String.mk c) with
      | none => ([], st)
      | some cmd =>
        let sp := isSpamming st.rate e.senderJid now
        let st2 := { st with rate := sp.2 }
        if sp.1 then ([], st2)
        else if cmd.ownerOnly && !e.isOwner then ([⟨e.sender, ownerOnlyText⟩], st2)
        else if cmd.groupOnly && !e.isGroup then ([⟨e.sender, groupOnlyText⟩], st2)
        else if cmd.privateOnly && e.isGroup then ([⟨e.sender, privateOnlyText⟩], st2)
        else
          match exec (String.mk c) with
          | Except.ok ms => (ms, st2)
          | Except.error _ => ([⟨e.sender, cmdErrorText⟩], st2)

/-- One iteration of the `messages.upsert` loop body for a single inbound
event. -/
def processEvent (exec : Exec) (st : BotState) (e : Event) (now : Nat) :
    List Msg × BotState :=
  if e.fromMe then ([], st)
  else
    let qi := quizIntercept st.quiz e.sender e.text
    if qi.consumed then (qi.msgs, { st with quiz := qi.store })
    else commandStage exec { st with quiz := qi.store } e now

/-- The `for (const msg of messages)` loop over one batch. -/
def processBatch (exec : Exec) (now : Nat) :
    BotState → List Event → List (List Msg) × BotState
  | st, [] => ([], st)
  | st, e :: es =>
    let r := processEvent exec st e now
    let rest := processBatch exec now r.2 es
    (r.1 :: rest.1, rest.2)

/-! ### Store invariant: at most one entry per key -/

def atMostOnePerKey {α : Type} (m : List (String × α)) : Prop :=
  ∀ k : String, m.countP (fun p => decide (p.1 = k)) ≤ 1

theorem countP_key_map_replace {α : Type} (m : List (String × α)) (k k2 : String)
    (v : α) :
    (m.map (fun p => if p.1 = k then (k, v) else p)).countP
        (fun p => decide (p.1 = k2)) =
      m.countP (fun p => decide (p.1 = k2)) := by
  induction m with
  | nil => rfl
  | cons p m ih =>
    by_cases hp : p.1 = k
    · simp [List.countP_cons, hp, ih]
    · simp [List.countP_cons, hp, ih]

theorem countP_key_eq_zero_of_get_none {α : Type} (m : List (String × α))
    (k : String) (h : mapGet m k = none) :
    m.countP (fun p => decide (p.1 = k)) = 0 := by
  rw [List.countP_eq_zero]
  intro p hp
  have hfind : m.find? (fun p => decide (p.1 = k)) = none := by
    unfold mapGet at h
    cases hf : m.find? (fun p => decide (p.1 = k)) with
    | none => rfl
    | some q => rw [hf] at h; simp at h
  have := List.find?_eq_none.mp hfind p hp
  simpa using this

theorem atMostOnePerKey_mapSet {α : Type} (m : List (String × α)) (k : String)
    (v : α) (h : atMostOnePerKey m) : atMostOnePerKey (mapSet m k v) := by
  intro k2
  unfold mapSet
  by_cases hhas : mapHas m k
  · rw [if_pos hhas, countP_key_map_replace]
    exact h k2
  · rw [if_neg hhas, List.countP_append]
    by_cases hk : k = k2
    · have hget : mapGet m k = none := by
        unfold mapHas at hhas
        cases hg : mapGet m k with
        | none => rfl
        | some q => rw [hg] at hhas; simp at hhas
      have h0 := countP_key_eq_zero_of_get_none m k hget
      subst hk
      simp [h0, List.countP_cons]
    · have : List.countP (fun p => decide (p.1 = k2)) [(k, v)] = 0 := by
        simp [List.countP_cons, hk]
      rw [this]
      simpa using h k2

theorem atMostOnePerKey_mapDelete {α : Type} (m : List (String × α)) (k : String)
    (h : atMostOnePerKey m) : atMostOnePerKey (mapDelete m k) := by
  intro k2
  calc (mapDelete m k).countP (fun p => decide (p.1 = k2))
      ≤ m.countP (fun p => decide (p.1 = k2)) :=
        (List.filter_sublist m).countP_le _
    _ ≤ 1 := h k2

/-! ### Claim theorems: quiz session behaviour -/

/-- **C3.** In a conversation with a live quiz session, an inbound message is
consumed as an answer exactly when its trimmed text is the literal token
`1`, `2` or `3`; any other text leaves the session store entirely unchanged,
cancels nothing, sends nothing, and the event falls through to the normal
command-dispatch stage. -/
theorem quiz_answer_classification (store : QuizStore) (sender : String)
    (text : List Char) (session : QuizSession)
    (h : mapGet store sender = some session) :
    ((quizIntercept store sender text).consumed = true ↔
      (jsTrim text = ['1'] ∨ jsTrim text = ['2'] ∨ jsTrim text = ['3'])) ∧
    (¬ (jsTrim text = ['1'] ∨ jsTrim text = ['2'] ∨ jsTrim text = ['3']) →
      quizIntercept store sender text = ⟨false, store, [], none⟩ ∧
      ∀ (exec : Exec) (rate : Tracker) (e : Event) (now : Nat),
        e.fromMe = false → e.text = text → e.sender = sender →
        processEvent exec ⟨store, rate⟩ e now =
          commandStage exec ⟨store, rate⟩ e now) := by
  constructor
  · by_cases ht : jsTrim text = ['1'] ∨ jsTrim text = ['2'] ∨ jsTrim text = ['3']
    · simp [quizIntercept, h, ht]
    · simp [quizIntercept, h, ht]
  · intro ht
    have hres : quizIntercept store sender text = ⟨false, store, [], none⟩ := by
      simp [quizIntercept, h, ht]
    refine ⟨hres, ?_⟩
    intro exec rate e now hfm htext hsender
    show processEvent exec ⟨store, rate⟩ e now = _
    rw [processEvent]
    rw [if_neg (by simp [hfm])]
    have : quizIntercept (BotState.mk store rate).quiz e.sender e.text =
        ⟨false, store, [], none⟩ := by
      rw [htext, hsender]; exact hres
    simp only [this]
    rfl

/-- Witness for `quiz_answer_classification` at a concrete session store. -/
theorem quiz_answer_classification_witness :
    (((quizIntercept [("c@g.us", ⟨⟨"q", [⟨"a", 1⟩, ⟨"b", 0⟩]⟩, 7⟩)]
        "c@g.us" [' ', '2', ' ']).consumed = true ↔
      (jsTrim [' ', '2', ' '] = ['1'] ∨ jsTrim [' ', '2', ' '] = ['2'] ∨
        jsTrim [' ', '2', ' '] = ['3'])) ∧
    (¬ (jsTrim [' ', '2', ' '] = ['1'] ∨ jsTrim [' ', '2', ' '] = ['2'] ∨
        jsTrim [' ', '2', ' '] = ['3']) →
      quizIntercept [("c@g.us", ⟨⟨"q", [⟨"a", 1⟩, ⟨"b", 0⟩]⟩, 7⟩)]
        "c@g.us" [' ', '2', ' '] =
        ⟨false, [("c@g.us", ⟨⟨"q", [⟨"a", 1⟩, ⟨"b", 0⟩]⟩, 7⟩)], [], none⟩ ∧
      ∀ (exec : Exec) (rate : Tracker) (e : Event) (now : Nat),
        e.fromMe = false → e.text = [' ', '2', ' '] → e.sender = "c@g.us" →
        processEvent exec ⟨[("c@g.us", ⟨⟨"q", [⟨"a", 1⟩, ⟨"b", 0⟩]⟩, 7⟩)], rate⟩
            e now =
          commandStage exec
            ⟨[("c@g.us", ⟨⟨"q", [⟨"a", 1⟩, ⟨"b", 0⟩]⟩, 7⟩)], rate⟩ e now)) :=
  quiz_answer_classification _ "c@g.us" [' ', '2', ' '] ⟨⟨"q", [⟨"a", 1⟩, ⟨"b", 0⟩]⟩, 7⟩
    (by decide)

/-- **C4.** Each quiz-store operation preserves the at-most-one-session-per-
conversation invariant; a start against a live session leaves the store
unchanged; both exit paths (answer consumption, timer expiry) remove the
entry. -/
theorem quiz_single_session (pool : List QuizQuestion) (store : QuizStore)
    (sender : String) (pick timerId : Nat) (text : List Char) (q : QuizQuestion)
    (hinv : atMostOnePerKey store) :
    atMostOnePerKey (quizStart pool store sender pick timerId).store ∧
    atMostOnePerKey (quizIntercept store sender text).store ∧
    atMostOnePerKey (quizExpire store sender q).1 ∧
    (mapHas store sender = true →
      (quizStart pool store sender pick timerId).store = store) ∧
    ((quizIntercept store sender text).consumed = true →
      mapGet (quizIntercept store sender text).store sender = none) ∧
    (mapHas store sender = true →
      mapGet (quizExpire store sender q).1 sender = none) := by
  refine ⟨?_, ?_, ?_, ?_, ?_, ?_⟩
  · unfold quizStart
    by_cases h0 : pool.length = 0
    · simpa [h0] using hinv
    · by_cases hhas : mapHas store sender
      · simpa [h0, hhas] using hinv
      · simpa [h0, hhas] using atMostOnePerKey_mapSet store sender _ hinv
  · unfold quizIntercept
    cases hg : mapGet store sender with
    | none => simpa using hinv
    | some session =>
      by_cases ht : jsTrim text = ['1'] ∨ jsTrim text = ['2'] ∨ jsTrim text = ['3']
      · simpa [ht] using atMostOnePerKey_mapDelete store sender hinv
      · simpa [ht] using hinv
  · unfold quizExpire
    by_cases hhas : mapHas store sender
    · simpa [hhas] using atMostOnePerKey_mapDelete store sender hinv
    · simpa [hhas] using hinv
  · intro hhas
    unfold quizStart
    by_cases h0 : pool.length = 0
    · simp [h0]
    · simp [h0, hhas]
  · intro hcons
    cases hg : mapGet store sender with
    | none => simp [quizIntercept, hg] at hcons
    | some session =>
      by_cases ht : jsTrim text = ['1'] ∨ jsTrim text = ['2'] ∨ jsTrim text = ['3']
      · have hst : (quizIntercept store sender text).store = mapDelete store sender := by
          simp [quizIntercept, hg, ht]
        rw [hst]
        exact mapGet_mapDelete_self store sender
      · simp [quizIntercept, hg, ht] at hcons
  · intro hhas
    unfold quizExpire
    simpa [hhas] using mapGet_mapDelete_self store sender

def witPool : List QuizQuestion := [⟨"q", [⟨"a", 1⟩]⟩]

def witStore : QuizStore := [("c@g.us", ⟨⟨"q", [⟨"a", 1⟩]⟩, 3⟩)]

def witQ : QuizQuestion := ⟨"q", [⟨"a", 1⟩]⟩

/-- Witness for `quiz_single_session` at a concrete store. -/
theorem quiz_single_session_witness :
    atMostOnePerKey (quizStart witPool witStore "c@g.us" 0 9).store ∧
    atMostOnePerKey (quizIntercept witStore "c@g.us" ['1']).store ∧
    atMostOnePerKey (quizExpire witStore "c@g.us" witQ).1 ∧
    (mapHas witStore "c@g.us" = true →
      (quizStart witPool witStore "c@g.us" 0 9).store = witStore) ∧
    ((quizIntercept witStore "c@g.us" ['1']).consumed = true →
      mapGet (quizIntercept witStore "c@g.us" ['1']).store "c@g.us" = none) ∧
    (mapHas witStore "c@g.us" = true →
      mapGet (quizExpire witStore "c@g.us" witQ).1 "c@g.us" = none) :=
  quiz_single_session witPool witStore "c@g.us" 0 9 ['1'] witQ
    (by intro k; by_cases hk : "c@g.us" = k <;>
      simp [witStore, List.countP_cons, hk])

/-- **C5.** A quiz start against a conversation that already has a live
session sends exactly the pending notice and changes nothing: same store
(hence same stored question and timer), no question drawn, no timer armed. -/
theorem quiz_double_start_guard (pool : List QuizQuestion) (store : QuizStore)
    (sender : String) (pick timerId : Nat)
    (hpool : pool ≠ []) (h : mapHas store sender = true) :
    quizStart pool store sender pick timerId =
      ⟨store, [⟨sender, pendingText⟩], none, none⟩ := by
  have h0 : ¬ pool.length = 0 := by
    simpa [List.length_eq_zero] using hpool
  simp [quizStart, h0, h]

/-- Witness for `quiz_double_start_guard` at a concrete store. -/
theorem quiz_double_start_guard_witness :
    quizStart [⟨"q2", [⟨"x", 1⟩]⟩] [("c@g.us", ⟨⟨"q", [⟨"a", 1⟩]⟩, 3⟩)]
        "c@g.us" 5 9 =
      ⟨[("c@g.us", ⟨⟨"q", [⟨"a", 1⟩]⟩, 3⟩)], [⟨"c@g.us", pendingText⟩],
        none, none⟩ :=
  quiz_double_start_guard [⟨"q2", [⟨"x", 1⟩]⟩]
    [("c@g.us", ⟨⟨"q", [⟨"a", 1⟩]⟩, 3⟩)] "c@g.us" 5 9 (by decide) (by decide)

/-! ### Claim C6: correctness marker vs displayed index -/

/-- The question's answer list has exactly one entry marked correct, at
0-based display position `i`. -/
def uniqueCorrect (q : QuizQuestion) (i : Nat) : Prop :=
  i < q.answers.length ∧ (q.answers.getD i ⟨"", 0⟩).t = 1 ∧
    ∀ j ∈ List.range q.answers.length, (q.answers.getD j ⟨"", 0⟩).t = 1 → j = i

instance (q : QuizQuestion) (i : Nat) : Decidable (uniqueCorrect q i) := by
  unfold uniqueCorrect
  infer_instance

theorem findIdxAux_unique {α : Type} (d : α) (p : α → Bool) :
    ∀ (l : List α) (i n : Nat), i < l.length → p (l.getD i d) = true →
      (∀ j, j < l.length → p (l.getD j d) = true → j = i) →
      findIdxAux p l n = some (n + i) := by
  intro l
  induction l with
  | nil => intro i n hi _ _; simp at hi
  | cons a l ih =>
    intro i n hi hp huniq
    cases hpa : p a with
    | true =>
      have h0 : 0 = i := huniq 0 (by simp) (by simpa using hpa)
      simp [findIdxAux, hpa, ← h0]
    | false =>
      cases i with
      | zero => rw [List.getD_cons_zero] at hp; rw [hp] at hpa; cases hpa
      | succ i2 =>
        have hi2 : i2 < l.length := by simpa using hi
        have hp2 : p (l.getD i2 d) = true := by simpa using hp
        have huniq2 : ∀ j, j < l.length → p (l.getD j d) = true → j = i2 := by
          intro j hj hpj
          have := huniq (j + 1) (by simpa using hj) (by simpa using hpj)
          omega
        have := ih i2 (n + 1) hi2 hp2 huniq2
        rw [findIdxAux, if_neg (by simp [hpa]), this]
        congr 1
        omega

theorem jsFindIndex_unique {α : Type} (d : α) (p : α → Bool) (l : List α)
    (i : Nat) (hi : i < l.length) (hp : p (l.getD i d) = true)
    (huniq : ∀ j, j < l.length → p (l.getD j d) = true → j = i) :
    jsFindIndex l p = (i : Int) := by
  rw [jsFindIndex, findIdxAux_unique d p l i 0 hi hp huniq]
  simp

/-- **C6.** For a question with exactly one answer marked correct (at 0-based
display position `i`), a consumed token `k ∈ {1,2,3}` is reported correct
precisely when `k` is the 1-based display position of the correct answer,
and the number displayed in the wrong-answer report and in the expiry
report is that same 1-based position. -/
theorem quiz_correctness_agrees (q : QuizQuestion) (k i : Nat)
    (hu : uniqueCorrect q i) (hk : k = 1 ∨ k = 2 ∨ k = 3) :
    answerCorrectNum q = (i : Int) + 1 ∧
    (answerIsCorrect q k = true ↔ (k : Int) = answerCorrectNum q) ∧
    expiryCorrectNum q = answerCorrectNum q := by
  obtain ⟨hi, hpi, huniq⟩ := hu
  have hk1 : 1 ≤ k := by omega
  have hpi2 : (fun a => a.t == 1) (q.answers.getD i ⟨"", 0⟩) = true := by
    simpa using hpi
  have huniq2 : ∀ j, j < q.answers.length →
      (fun a => a.t == 1) (q.answers.getD j ⟨"", 0⟩) = true → j = i := by
    intro j hj hpj
    exact huniq j (List.mem_range.mpr hj) (by simpa using hpj)
  have hfind : jsFindIndex q.answers (fun a => a.t == 1) = (i : Int) :=
    jsFindIndex_unique ⟨"", 0⟩ _ q.answers i hi hpi2 huniq2
  have hnum : answerCorrectNum q = (i : Int) + 1 := by
    rw [answerCorrectNum, hfind]
  refine ⟨hnum, ?_, rfl⟩
  rw [hnum]
  by_cases hkl : k - 1 < q.answers.length
  · have hget : q.answers[k - 1]? = some (q.answers.getD (k - 1) ⟨"", 0⟩) := by
      rw [List.getElem?_eq_getElem hkl, List.getD_eq_getElem _ _ hkl]
    rw [answerIsCorrect, hget]
    simp only [beq_iff_eq]
    constructor
    · intro ht
      have := huniq2 (k - 1) hkl (by simpa using ht)
      omega
    · intro hki
      have hik : k - 1 = i := by omega
      rw [hik]
      exact hpi
  · have hget : q.answers[k - 1]? = none := by
      rw [List.getElem?_eq_none]
      omega
    rw [answerIsCorrect, hget]
    constructor
    · intro ht; cases ht
    · intro hki
      exfalso
      omega

/-- Witness for `quiz_correctness_agrees` at a concrete question. -/
theorem quiz_correctness_agrees_witness :
    answerCorrectNum ⟨"q", [⟨"a", 0⟩, ⟨"b", 1⟩, ⟨"c", 0⟩]⟩ = ((1 : Nat) : Int) + 1 ∧
    (answerIsCorrect ⟨"q", [⟨"a", 0⟩, ⟨"b", 1⟩, ⟨"c", 0⟩]⟩ 2 = true ↔
      ((2 : Nat) : Int) = answerCorrectNum ⟨"q", [⟨"a", 0⟩, ⟨"b", 1⟩, ⟨"c", 0⟩]⟩) ∧
    expiryCorrectNum ⟨"q", [⟨"a", 0⟩, ⟨"b", 1⟩, ⟨"c", 0⟩]⟩ =
      answerCorrectNum ⟨"q", [⟨"a", 0⟩, ⟨"b", 1⟩, ⟨"c", 0⟩]⟩ :=
  quiz_correctness_agrees ⟨"q", [⟨"a", 0⟩, ⟨"b", 1⟩, ⟨"c", 0⟩]⟩ 2 1
    (by decide) (by omega)

/-! ### Claim C9: persisted chat/user sets round-trip
(src/utils/chatStore.js `loadChats`/`saveChats`;
src/utils/seenUsers.js `loadSeenUsers`/`saveSeenUsers`) -/

structure ChatsFile where
  lastUpdated : String
  count : Nat
  chats : List String
deriving DecidableEq, Repr

structure UsersFile where
  lastUpdated : String
  count : Nat
  users : List String
deriving DecidableEq, Repr

/-- `new Set(list)`: deduplicate keeping first occurrences (the in-memory JS
`Set` is modelled as its insertion-ordered, duplicate-free element list). -/
def jsNewSet : List String → List String
  | [] => []
  | x :: xs => x :: (jsNewSet xs).filter (fun y => decide (¬ y = x))

/-- `saveChats`: serialize `{lastUpdated, count: chats.size,
chats: Array.from(chats)}`. -/
def saveChats (nowIso : String) (chats : List String) : ChatsFile :=
  ⟨nowIso, chats.length, chats⟩

/-- `loadChats`: `new Set(data.chats || [])`. -/
def loadChats (f : ChatsFile) : List String := jsNewSet f.chats

/-- `saveSeenUsers`: serialize `{lastUpdated, count: users.size,
users: Array.from(users)}`. -/
def saveSeenUsers (nowIso : String) (users : List String) : UsersFile :=
  ⟨nowIso, users.length, users⟩

/-- `loadSeenUsers`: `new Set(data.users || [])`. -/
def loadSeenUsers (f : UsersFile) : List String := jsNewSet f.users

theorem jsNewSet_of_nodup (l : List String) (h : l.Nodup) : jsNewSet l = l := by
  induction l with
  | nil => rfl
  | cons x xs ih =>
    have hx : x ∉ xs := (List.nodup_cons.mp h).1
    have hxs : xs.Nodup := (List.nodup_cons.mp h).2
    rw [jsNewSet, ih hxs]
    congr 1
    rw [List.filter_eq_self]
    intro y hy
    simp only [decide_eq_true_eq]
    intro hyx
    exact hx (hyx ▸ hy)

/-- **C9.** Saving a duplicate-free identifier set and reloading it
reproduces exactly the same identifiers, for both the tracked-chat store and
the seen-user store, and the serialized `count` field equals the set's
cardinality. -/
theorem persisted_sets_round_trip (s u : List String) (iso1 iso2 : String)
    (hs : s.Nodup) (hu : u.Nodup) :
    loadChats (saveChats iso1 s) = s ∧ (saveChats iso1 s).count = s.length ∧
    loadSeenUsers (saveSeenUsers iso2 u) = u ∧
    (saveSeenUsers iso2 u).count = u.length :=
  ⟨jsNewSet_of_nodup s hs, rfl, jsNewSet_of_nodup u hu, rfl⟩

/-- Witness for `persisted_sets_round_trip` at concrete sets. -/
theorem persisted_sets_round_trip_witness :
    loadChats (saveChats "t1" ["a@g.us", "b@s.whatsapp.net"]) =
      ["a@g.us", "b@s.whatsapp.net"] ∧
    (saveChats "t1" ["a@g.us", "b@s.whatsapp.net"]).count = 2 ∧
    loadSeenUsers (saveSeenUsers "t2" ["u1@lid"]) = ["u1@lid"] ∧
    (saveSeenUsers "t2" ["u1@lid"]).count = 1 :=
  persisted_sets_round_trip ["a@g.us", "b@s.whatsapp.net"] ["u1@lid"] "t1" "t2"
    (by decide) (by decide)

/-! ### Claims C8 and C10: command resolution -/

theorem dropWhile_append_singleton_reverse (c : Char) (hc : isWs c = false) :
    ∀ m : List Char, ∃ r, ((m ++ [c]).dropWhile isWs).reverse = c :: r := by
  intro m
  induction m with
  | nil => exact ⟨[], by simp [List.dropWhile, hc]⟩
  | cons a m ih =>
    cases ha : isWs a with
    | true =>
      obtain ⟨r, hr⟩ := ih
      exact ⟨r, by simpa [List.dropWhile, ha] using hr⟩
    | false =>
      refine ⟨m.reverse ++ [a], ?_⟩
      simp [List.dropWhile, ha, List.reverse_append]

/-- A string whose first character is not whitespace trims to that character
followed by some remainder. -/
theorem jsTrim_cons_head (c : Char) (l : List Char) (hc : isWs c = false) :
    ∃ r, jsTrim (c :: l) = c :: r := by
  rw [jsTrim]
  rw [List.dropWhile_cons_of_neg (by simp [hc])]
  rw [show (c :: l).reverse = l.reverse ++ [c] by simp]
  exact dropWhile_append_singleton_reverse c hc l.reverse

/-- `jsTrim` of a non-whitespace character followed by pure whitespace. -/
theorem jsTrim_cons_ws (c : Char) (ws : List Char) (hc : isWs c = false)
    (hws : ∀ x ∈ ws, isWs x = true) : jsTrim (c :: ws) = [c] := by
  rw [jsTrim]
  rw [List.dropWhile_cons_of_neg (by simp [hc])]
  rw [show (c :: ws).reverse = ws.reverse ++ [c] by simp]
  rw [dropWhile_append_all isWs ws.reverse [c]
    (fun x hx => hws x (by simpa using hx))]
  simp [List.dropWhile, hc]

/-- The quiz interceptor never consumes a message whose first character is
a non-whitespace character other than the digits 1–3 (such as a command
prefix). -/
theorem quizIntercept_not_consumed_head (store : QuizStore) (sender : String)
    (c : Char) (l : List Char) (hc : isWs c = false)
    (h1 : c ≠ '1') (h2 : c ≠ '2') (h3 : c ≠ '3') :
    quizIntercept store sender (c :: l) = ⟨false, store, [], none⟩ := by
  obtain ⟨r, hr⟩ := jsTrim_cons_head c l hc
  have ht : ¬ (jsTrim (c :: l) = ['1'] ∨ jsTrim (c :: l) = ['2'] ∨
      jsTrim (c :: l) = ['3']) := by
    rw [hr]
    intro hor
    rcases hor with h | h | h <;> exact absurd (List.head_eq_of_cons_eq h) (by assumption)
  cases hg : mapGet store sender with
  | none => simp [quizIntercept, hg]
  | some session => simp [quizIntercept, hg, ht]

theorem jsToLower_ne_nil (t : List Char) (h : t ≠ []) : jsToLower t ≠ [] := by
  cases t with
  | nil => exact absurd rfl h
  | cons a t2 => simp [jsToLower]

/-- **C8.** Command resolution is case-insensitive on the leading token only:
two invocations whose leading tokens agree up to letter case parse to the
same command with the argument tokens passed through unchanged (hence they
resolve to the same registry descriptor); and when the lowercased token
resolves to no registered command, the event produces no dispatch, no
message and no state change. -/
theorem command_resolution_case_insensitive
    (tok1 tok2 : List Char) (args : List (List Char))
    (h1 : tok1 ≠ [] ∧ ∀ c ∈ tok1, isWs c = false)
    (h2 : tok2 ≠ [] ∧ ∀ c ∈ tok2, isWs c = false)
    (hargs : ∀ t ∈ args, t ≠ [] ∧ ∀ c ∈ t, isWs c = false)
    (hlow : jsToLower tok1 = jsToLower tok2) :
    parseCommand (['/'] ++ joinSp (tok1 :: args)) botPrefixes =
      ⟨some (jsToLower tok1), args, joinSp args, some ['/']⟩ ∧
    (parseCommand (['/'] ++ joinSp (tok2 :: args)) botPrefixes).command =
      (parseCommand (['/'] ++ joinSp (tok1 :: args)) botPrefixes).command ∧
    (parseCommand (['/'] ++ joinSp (tok2 :: args)) botPrefixes).args = args ∧
    (∀ c, (parseCommand (['/'] ++ joinSp (tok1 :: args)) botPrefixes).command
        = some c →
      getCommand (String.mk c) = getCommand (String.mk (jsToLower tok1))) ∧
    (getCommand (String.mk (jsToLower tok1)) = none →
      ∀ (exec : Exec) (st : BotState) (e : Event) (now : Nat),
        e.fromMe = false → e.text = ['/'] ++ joinSp (tok1 :: args) →
        processEvent exec st e now = ([], st)) := by
  have hp1 : parseCommand (['/'] ++ joinSp (tok1 :: args)) botPrefixes =
      ⟨some (jsToLower tok1), args, joinSp args, some ['/']⟩ :=
    parseCommand_tokens ['/'] tok1 args h1 hargs
  have hp2 : parseCommand (['/'] ++ joinSp (tok2 :: args)) botPrefixes =
      ⟨some (jsToLower tok2), args, joinSp args, some ['/']⟩ :=
    parseCommand_tokens ['/'] tok2 args h2 hargs
  refine ⟨hp1, ?_, ?_, ?_, ?_⟩
  · rw [hp1, hp2, hlow]
  · rw [hp2]
  · intro c hc
    rw [hp1] at hc
    simp only [Option.some.injEq] at hc
    rw [hc]
  · intro hnone exec st e now hfm htext
    rw [processEvent, if_neg (by simp [hfm])]
    have hqi : quizIntercept st.quiz e.sender e.text =
        ⟨false, st.quiz, [], none⟩ := by
      rw [htext]
      show quizIntercept st.quiz e.sender ('/' :: joinSp (tok1 :: args)) = _
      exact quizIntercept_not_consumed_head st.quiz e.sender '/' _
        (by decide) (by decide) (by decide) (by decide)
    simp only [hqi]
    show commandStage exec { st with quiz := st.quiz } e now = ([], st)
    have hst : { st with quiz := st.quiz } = st := rfl
    rw [hst, commandStage]
    rw [show parseCommand e.text botPrefixes =
        ⟨some (jsToLower tok1), args, joinSp args, some ['/']⟩ from htext ▸ hp1]
    simp only [if_neg (jsToLower_ne_nil tok1 h1.1), hnone]

/-- Witness for `command_resolution_case_insensitive`:
`/PING x` vs `/ping x`, plus the unregistered lowercase token `zzz`. -/
theorem command_resolution_case_insensitive_witness :
    parseCommand (['/'] ++ joinSp (['z', 'Z', 'z'] :: [['x']])) botPrefixes =
      ⟨some (jsToLower ['z', 'Z', 'z']), [['x']], joinSp [['x']], some ['/']⟩ ∧
    (parseCommand (['/'] ++ joinSp (['z', 'z', 'Z'] :: [['x']])) botPrefixes).command =
      (parseCommand (['/'] ++ joinSp (['z', 'Z', 'z'] :: [['x']])) botPrefixes).command ∧
    (parseCommand (['/'] ++ joinSp (['z', 'z', 'Z'] :: [['x']])) botPrefixes).args
      = [['x']] ∧
    (∀ c, (parseCommand (['/'] ++ joinSp (['z', 'Z', 'z'] :: [['x']]))
        botPrefixes).command = some c →
      getCommand (String.mk c) = getCommand (String.mk (jsToLower ['z', 'Z', 'z']))) ∧
    (getCommand (String.mk (jsToLower ['z', 'Z', 'z'])) = none →
      ∀ (exec : Exec) (st : BotState) (e : Event) (now : Nat),
        e.fromMe = false → e.text = ['/'] ++ joinSp (['z', 'Z', 'z'] :: [['x']]) →
        processEvent exec st e now = ([], st)) :=
  command_resolution_case_insensitive ['z', 'Z', 'z'] ['z', 'z', 'Z'] [['x']]
    (by decide) (by decide) (by decide) (by decide)

/-- **C10.** A configured prefix followed only by whitespace (or alone)
parses to the empty-string command — not `null` — with no arguments; the
empty name resolves to no registered descriptor, and the dispatch stage
sends nothing and dispatches nothing. -/
theorem dropWhile_all {α : Type} (p : α → Bool) (l : List α)
    (h : ∀ a ∈ l, p a = true) : l.dropWhile p = [] := by
  induction l with
  | nil => rfl
  | cons a l ih =>
    simp [List.dropWhile, h a (by simp), ih (fun x hx => h x (by simp [hx]))]

theorem parseCommand_eval (text p : List Char) (ps : List (List Char))
    (hfind : ps.find? (fun q => q.isPrefixOf text) = some p) :
    parseCommand text ps =
      ⟨some (jsToLower ((jsSplitWsTrimmed (jsTrim (text.drop p.length))).headD [])),
       (jsSplitWsTrimmed (jsTrim (text.drop p.length))).tail,
       joinSp ((jsSplitWsTrimmed (jsTrim (text.drop p.length))).tail), some p⟩ := by
  rw [parseCommand, hfind]

set_option maxRecDepth 8192 in
theorem getCommand_empty : getCommand (String.mk []) = none := by decide

theorem prefix_only_message (ws : List Char) (hws : ∀ c ∈ ws, isWs c = true) :
    parseCommand ('/' :: ws) botPrefixes = ⟨some [], [], [], some ['/']⟩ ∧
    getCommand (String.mk []) = none ∧
    (∀ (exec : Exec) (st : BotState) (e : Event) (now : Nat),
      e.fromMe = false → e.text = '/' :: ws →
      processEvent exec st e now = ([], st)) := by
  have hfind : botPrefixes.find? (fun q => q.isPrefixOf ('/' :: ws)) = some ['/'] := by
    have hpre : (['/'] : List Char).isPrefixOf ('/' :: ws) = true :=
      isPrefixOf_append ['/'] ws
    simp [botPrefixes, List.find?, hpre]
  have htrim : jsTrim (('/' :: ws).drop (['/'] : List Char).length) = [] := by
    show jsTrim ws = []
    rw [jsTrim, dropWhile_all isWs ws hws]
    rfl
  have hparse : parseCommand ('/' :: ws) botPrefixes =
      ⟨some [], [], [], some ['/']⟩ := by
    rw [parseCommand_eval ('/' :: ws) ['/'] botPrefixes hfind, htrim]
    rfl
  refine ⟨hparse, getCommand_empty, ?_⟩
  intro exec st e now hfm htext
  rw [processEvent, if_neg (by simp [hfm])]
  have hqi : quizIntercept st.quiz e.sender e.text =
      ⟨false, st.quiz, [], none⟩ := by
    rw [htext]
    exact quizIntercept_not_consumed_head st.quiz e.sender '/' ws
      (by decide) (by decide) (by decide) (by decide)
  simp only [hqi]
  show commandStage exec { st with quiz := st.quiz } e now = ([], st)
  have hst : { st with quiz := st.quiz } = st := rfl
  have hpe : parseCommand e.text botPrefixes = ⟨some [], [], [], some ['/']⟩ := by
    rw [htext]; exact hparse
  rw [hst, commandStage, hpe]
  rfl

/-- Witness for `prefix_only_message` on the bare prefix plus one space. -/
theorem prefix_only_message_witness :
    parseCommand ('/' :: [' ']) botPrefixes = ⟨some [], [], [], some ['/']⟩ ∧
    getCommand (String.mk []) = none ∧
    (∀ (exec : Exec) (st : BotState) (e : Event) (now : Nat),
      e.fromMe = false → e.text = '/' :: [' '] →
      processEvent exec st e now = ([], st)) :=
  prefix_only_message [' '] (by decide)

/-! ### Claim C7: handler exceptions are caught at the handler boundary -/

/-- **C7.** When a dispatched command handler throws (`exec` returns
`Except.error`), the dispatch loop catches it at the handler boundary and
sends exactly one generic failure notice to the originating conversation;
batch processing always yields one output slot per inbound event, so the
next event in the batch is still processed and nothing terminates the
loop. -/
theorem command_error_caught (exec : Exec) (st : BotState) (e : Event)
    (now : Nat) (c : List Char) (cmd : CommandData) (err : String)
    (hfm : e.fromMe = false)
    (hqi : (quizIntercept st.quiz e.sender e.text).consumed = false)
    (hc : (parseCommand e.text botPrefixes).command = some c)
    (hcne : c ≠ [])
    (hcmd : getCommand (String.mk c) = some cmd)
    (hsp : (isSpamming st.rate e.senderJid now).1 = false)
    (ho : (cmd.ownerOnly && !e.isOwner) = false)
    (hg : (cmd.groupOnly && !e.isGroup) = false)
    (hp : (cmd.privateOnly && e.isGroup) = false)
    (herr : exec (String.mk c) = Except.error err) :
    (processEvent exec st e now).1 = [⟨e.sender, cmdErrorText⟩] ∧
    ((processEvent exec st e now).1.countP
      (fun m => m.body == cmdErrorText)) = 1 ∧
    (∀ es : List Event, (processBatch exec now st (e :: es)).1 =
      (processEvent exec st e now).1 ::
        (processBatch exec now (processEvent exec st e now).2 es).1) ∧
    (∀ (st2 : BotState) (es : List Event),
      (processBatch exec now st2 es).1.length = es.length) := by
  have hmain : processEvent exec st e now =
      commandStage exec
        { st with quiz := (quizIntercept st.quiz e.sender e.text).store } e now := by
    rw [processEvent, if_neg (by simp [hfm])]
    simp only [hqi, Bool.false_eq_true, if_false]
  have hres : (processEvent exec st e now).1 = [⟨e.sender, cmdErrorText⟩] := by
    rw [hmain, commandStage]
    simp only [hc, hcmd, herr, hsp, ho, hg, hp, if_neg hcne,
      Bool.false_eq_true, if_false]
  refine ⟨hres, ?_, ?_, ?_⟩
  · rw [hres]
    simp [List.countP_cons]
  · intro es
    rfl
  · intro st2 es
    induction es generalizing st2 with
    | nil => rfl
    | cons e2 es2 ih => simp [processBatch, ih]

def witExec : Exec := fun _ => Except.error "boom"

def witEvent : Event := ⟨false, ['/', 'p', 'i', 'n', 'g'],
  "c@s.whatsapp.net", "c@s.whatsapp.net", false, false⟩

def witBot : BotState := ⟨[], []⟩

def pingCmd : CommandData := ⟨"ping", ["بنق", "اتصال"], false, false, false⟩

set_option maxRecDepth 8192 in
/-- Witness for `command_error_caught`: a `/ping` invocation whose handler
throws. -/
theorem command_error_caught_witness :
    (processEvent witExec witBot witEvent 0).1 =
      [⟨witEvent.sender, cmdErrorText⟩] ∧
    ((processEvent witExec witBot witEvent 0).1.countP
      (fun m => m.body == cmdErrorText)) = 1 ∧
    (∀ es : List Event, (processBatch witExec 0 witBot (witEvent :: es)).1 =
      (processEvent witExec witBot witEvent 0).1 ::
        (processBatch witExec 0 (processEvent witExec witBot witEvent 0).2 es).1) ∧
    (∀ (st2 : BotState) (es : List Event),
      (processBatch witExec 0 st2 es).1.length = es.length) :=
  command_error_caught witExec witBot witEvent 0 ['p', 'i', 'n', 'g'] pingCmd
    "boom" rfl (by decide) (by decide) (by decide) (by decide) (by decide)
    (by decide) (by decide) (by decide) rfl

/-! ### Claim C2: at most one of the answer path and the expiry-timer path
consumes a quiz session

The race between the answer interceptor (src/index.js lines 217–242) and
the expiry timer callback (src/commands/index.js lines 819–828) is modelled
as an interleaved transition system.  In the single-threaded event loop each
path's synchronous prefix — the presence check followed immediately by the
store deletion (`quizSessions.has` … `quizSessions.delete`) — runs
atomically before the path suspends on its first `await`; the report send
is a separate later step.  `answerTake`/`timerTake` model the
check-and-delete prefix when the session is present,
`answerSkip`/`timerSkip` the no-op prefix when it is absent, and
`answerSend`/`timerSend` the subsequent report emission. -/

inductive PathPC where
  | ready
  | emit
  | done
deriving DecidableEq, Repr

structure RaceState where
  present : Bool
  apc : PathPC
  tpc : PathPC
  aEmits : Nat
  tEmits : Nat
deriving DecidableEq, Repr

inductive RaceStep : RaceState → RaceState → Prop where
  | answerTake (s : RaceState) (h : s.apc = .ready) (hp : s.present = true) :
      RaceStep s { s with present := false, apc := .emit }
  | answerSkip (s : RaceState) (h : s.apc = .ready) (hp : s.present = false) :
      RaceStep s { s with apc := .done }
  | answerSend (s : RaceState) (h : s.apc = .emit) :
      RaceStep s { s with apc := .done, aEmits := s.aEmits + 1 }
  | timerTake (s : RaceState) (h : s.tpc = .ready) (hp : s.present = true) :
      RaceStep s { s with present := false, tpc := .emit }
  | timerSkip (s : RaceState) (h : s.tpc = .ready) (hp : s.present = false) :
      RaceStep s { s with tpc := .done }
  | timerSend (s : RaceState) (h : s.tpc = .emit) :
      RaceStep s { s with tpc := .done, tEmits := s.tEmits + 1 }

/-- A live session with both competing paths still pending. -/
def raceInit : RaceState := ⟨true, .ready, .ready, 0, 0⟩

def presFlag : Bool → Nat
  | true => 1
  | false => 0

def emitFlag : PathPC → Nat
  | .emit => 1
  | _ => 0

def raceTokens (s : RaceState) : Nat :=
  presFlag s.present + emitFlag s.apc + emitFlag s.tpc + s.aEmits + s.tEmits

def raceInv (s : RaceState) : Prop :=
  raceTokens s = 1 ∧ (s.present = true → s.apc = .ready ∧ s.tpc = .ready)

theorem raceInv_init : raceInv raceInit := by
  constructor
  · rfl
  · intro _; exact ⟨rfl, rfl⟩

theorem raceInv_step (s s2 : RaceState) (hstep : RaceStep s s2)
    (hinv : raceInv s) : raceInv s2 := by
  obtain ⟨htok, hpres⟩ := hinv
  cases hstep with
  | answerTake h hp =>
    obtain ⟨ha, ht⟩ := hpres hp
    constructor
    · unfold raceTokens at htok ⊢
      simp only [hp, ha, ht, presFlag, emitFlag] at htok ⊢
      omega
    · intro hcontra; simp at hcontra
  | answerSkip h hp =>
    constructor
    · unfold raceTokens at htok ⊢
      simp only [hp, h, presFlag, emitFlag] at htok ⊢
      omega
    · intro hcontra; simp only [hp] at hcontra; cases hcontra
  | answerSend h =>
    have hpf : s.present = false := by
      cases hps : s.present with
      | false => rfl
      | true => rw [(hpres hps).1] at h; cases h
    constructor
    · unfold raceTokens at htok ⊢
      simp only [hpf, h, presFlag, emitFlag] at htok ⊢
      omega
    · intro hcontra; simp only [hpf] at hcontra; cases hcontra
  | timerTake h hp =>
    obtain ⟨ha, ht⟩ := hpres hp
    constructor
    · unfold raceTokens at htok ⊢
      simp only [hp, ha, ht, presFlag, emitFlag] at htok ⊢
      omega
    · intro hcontra; simp at hcontra
  | timerSkip h hp =>
    constructor
    · unfold raceTokens at htok ⊢
      simp only [hp, h, presFlag, emitFlag] at htok ⊢
      omega
    · intro hcontra; simp only [hp] at hcontra; cases hcontra
  | timerSend h =>
    have hpf : s.present = false := by
      cases hps : s.present with
      | false => rfl
      | true => rw [(hpres hps).2] at h; cases h
    constructor
    · unfold raceTokens at htok ⊢
      simp only [hpf, h, presFlag, emitFlag] at htok ⊢
      omega
    · intro hcontra; simp only [hpf] at hcontra; cases hcontra

theorem raceInv_reachable (s : RaceState)
    (h : Relation.ReflTransGen RaceStep raceInit s) : raceInv s := by
  induction h with
  | refl => exact raceInv_init
  | tail hr hstep ih => exact raceInv_step _ _ hstep ih

/-- **C2.** From a live session with both the answer path and the expiry
path pending, along every interleaving the correct-option report is emitted
at most once, and if both paths have run to completion it is emitted
exactly once: exactly one of the two competing paths performs the consuming
transition, and a timer callback that finds the session already removed is
a no-op. -/
theorem quiz_race_exactly_once (s : RaceState)
    (h : Relation.ReflTransGen RaceStep raceInit s) :
    s.aEmits + s.tEmits ≤ 1 ∧
    (s.apc = .done → s.tpc = .done → s.aEmits + s.tEmits = 1) := by
  obtain ⟨htok, hpres⟩ := raceInv_reachable s h
  constructor
  · unfold raceTokens at htok
    have h1 : presFlag s.present ≤ 1 := by cases s.present <;> simp [presFlag]
    have h2 : emitFlag s.apc ≤ 1 := by cases s.apc <;> simp [emitFlag]
    have h3 : emitFlag s.tpc ≤ 1 := by cases s.tpc <;> simp [emitFlag]
    omega
  · intro ha ht
    have hp : s.present = false := by
      cases hps : s.present with
      | false => rfl
      | true => rw [(hpres hps).1] at ha; cases ha
    unfold raceTokens at htok
    rw [hp, ha, ht] at htok
    simpa [presFlag, emitFlag] using htok

/-- Witness for `quiz_race_exactly_once`: the interleaving where the answer
path consumes the session, then the timer fires and finds it gone. -/
theorem quiz_race_exactly_once_witness :
    (⟨false, .done, .done, 1, 0⟩ : RaceState).aEmits +
        (⟨false, .done, .done, 1, 0⟩ : RaceState).tEmits ≤ 1 ∧
    ((⟨false, .done, .done, 1, 0⟩ : RaceState).apc = .done →
      (⟨false, .done, .done, 1, 0⟩ : RaceState).tpc = .done →
      (⟨false, .done, .done, 1, 0⟩ : RaceState).aEmits +
        (⟨false, .done, .done, 1, 0⟩ : RaceState).tEmits = 1) :=
  quiz_race_exactly_once ⟨false, .done, .done, 1, 0⟩
    (by
      have h1 : RaceStep raceInit ⟨false, .emit, .ready, 0, 0⟩ :=
        RaceStep.answerTake raceInit rfl rfl
      have h2 : RaceStep ⟨false, .emit, .ready, 0, 0⟩
          ⟨false, .done, .ready, 1, 0⟩ :=
        RaceStep.answerSend ⟨false, .emit, .ready, 0, 0⟩ rfl
      have h3 : RaceStep ⟨false, .done, .ready, 1, 0⟩
          ⟨false, .done, .done, 1, 0⟩ :=
        RaceStep.timerSkip ⟨false, .done, .ready, 1, 0⟩ rfl rfl
      exact Relation.ReflTransGen.tail
        (Relation.ReflTransGen.tail (Relation.ReflTransGen.single h1) h2) h3)

end QuranBot
